import Mathlib

/-!
Verification of the analyst-server repository core: the structured-output
extractor, the recommendation validator/normalizer, the budget computation,
and the phase orchestrator (price injection, audit, planning, research,
ticker discovery, synthesis, validation) with cooperative cancellation.

The JavaScript source is shallowly embedded: JS numbers are modelled as
rationals (ℚ), JS strings as `List Char` (ASCII inputs), objects used as
maps as association lists with JS assignment semantics, and the request
handler as a computation in a state monad carrying a tick counter and the
trace of outbound network calls, with exceptions modelled by `Except`.
Network services (price oracle, reasoning service, search service) and the
platform builtin `JSON.parse` are oracle parameters of the model; the
literal wording of prompts (out of scope per the specification) is
abstracted, while the structured data a prompt embeds is recorded on the
corresponding outbound-call trace entry.
-/

set_option maxRecDepth 4000

attribute [local semireducible] Rat.mul Rat.inv Rat.add Rat.sub

namespace AnalystServer

/-! ## JavaScript string primitives -/

/-- JS whitespace for `\s`, `trim` and friends (ASCII fragment). -/
def isJsWs (c : Char) : Bool :=
  c = ' ' || c = '\t' || c = '\n' || c = '\x0d' || c = '\x0b' || c = '\x0c'

/-- Left-brace character, written once for reuse. -/
def lb : Char := '\x7b'

/-- Right-brace character. -/
def rb : Char := '\x7d'

/-- `String.prototype.trim`. -/
def jsTrim (s : List Char) : List Char :=
  ((s.dropWhile isJsWs).reverse.dropWhile isJsWs).reverse

/-- `startsWith`: does `pre` occur as a prefix of `s`? -/
def startsWithL : List Char → List Char → Bool
  | _, [] => true
  | [], _ :: _ => false
  | c :: s, d :: p => c = d && startsWithL s p

/-- `String.prototype.includes`: does `sub` occur as a contiguous substring? -/
def containsSub : List Char → List Char → Bool
  | s, sub =>
    match s with
    | [] => startsWithL [] sub
    | _ :: rest => startsWithL s sub || containsSub rest sub

/-- First index at which `sub` occurs, as JS `indexOf` (-1 when absent). -/
def jsIndexOfAux : List Char → List Char → Nat → Int
  | s, sub, i =>
    match s with
    | [] => if startsWithL [] sub then (i : Int) else -1
    | _ :: rest =>
      if startsWithL s sub then (i : Int) else jsIndexOfAux rest sub (i + 1)

/-- JS `String.prototype.indexOf`. -/
def jsIndexOf (s sub : List Char) : Int := jsIndexOfAux s sub 0

/-- JS `str[i]` character indexing: `undefined` out of range. -/
def jsCharAt (s : List Char) (i : Int) : Option Char :=
  if h : 0 ≤ i ∧ i.toNat < s.length then some (s.get ⟨i.toNat, h.2⟩) else none

/-- Greatest index `i ≤ pos` with character `c` at `i`, as JS
`lastIndexOf(c, pos)`; a negative `pos` is treated as 0. -/
def jsLastIndexOfCharFrom (s : List Char) (c : Char) (pos : Int) : Int :=
  let bound : Nat := min (max pos 0).toNat (s.length - 1)
  match ((List.range s.length).filter fun i =>
      decide (i ≤ bound) && decide (jsCharAt s (i : Int) = some c)).getLast? with
  | some i => (i : Int)
  | none => -1

/-- JS `String.prototype.lastIndexOf` for a single character, no bound. -/
def jsLastIndexOfChar (s : List Char) (c : Char) : Int :=
  jsLastIndexOfCharFrom s c (s.length : Int)

/-- JS `String.prototype.substring`: clamps the arguments into range and
swaps them when start exceeds end. -/
def jsSubstring (s : List Char) (a b : Int) : List Char :=
  let a0 := min (max a 0).toNat s.length
  let b0 := min (max b 0).toNat s.length
  ((s.take (max a0 b0)).drop (min a0 b0))

/-- JS `toUpperCase` (ASCII fragment). -/
def upperL (s : List Char) : List Char := s.map Char.toUpper

/-! ## Structured Output Extractor (`extractJSON`) -/

/-- The discriminator marker literal of the synthesis envelope. -/
def markerL : List Char := ("\"type\": \"analysis_result\"").toList

/-- Fence delimiter (three backticks). -/
def fenceL : List Char := ("```").toList

/-- The tag optionally following the opening fence. -/
def jsonTagL : List Char := ("json").toList

/-- One step of the forward brace-balance loop of `extractJSON`
(part_000 lines 36–42): from index `i` with running balance `bal`, return
the substring `cleanStr.substring(start, i+1)` at the first index where the
balance returns to zero, or `none` when the loop runs off the end. -/
def braceGo (cs : List Char) (start : Int) : Nat → Int → Int → Option (List Char)
  | 0, _, _ => none
  | fuel + 1, i, bal =>
    if i < (cs.length : Int) then
      let c := jsCharAt cs i
      let bal1 := if c = some lb then bal + 1 else bal
      let bal2 := if c = some rb then bal1 - 1 else bal1
      if bal2 = 0 then some (jsSubstring cs start (i + 1))
      else braceGo cs start fuel (i + 1) bal2
    else none

/-- The balanced-brace scan anchored at `start` (which is `-1` when no
brace precedes the marker, exactly as JS `lastIndexOf` yields). -/
def braceScan (cs : List Char) (start : Int) : Option (List Char) :=
  braceGo cs start (cs.length + 2) start 0

/-- Marker-anchored start index: `cleanStr.lastIndexOf(lb, cleanStr.indexOf(marker))`. -/
def markerStart (cs : List Char) : Int :=
  jsLastIndexOfCharFrom cs lb (jsIndexOf cs markerL)

/-- Is there a fence (three backticks) at index `i`? -/
def fenceAt (cs : List Char) (i : Nat) : Bool :=
  startsWithL (cs.drop i) fenceL

/-- Earliest fence index `t` with `t ≥ i`, if any. -/
def firstFenceGE (cs : List Char) (i : Nat) : Option Nat :=
  ((List.range (cs.length + 1)).filter fun t => i ≤ t && fenceAt cs t).head?

/-- Number of leading JS-whitespace characters. -/
def countWs (s : List Char) : Nat := (s.takeWhile isJsWs).length

/-- Strip trailing JS whitespace. -/
def dropTrailingWs (s : List Char) : List Char :=
  (s.reverse.dropWhile isJsWs).reverse

/-- Attempt the fenced-block regex match starting at fence position `p`:
consume the fence, the optional `json` tag and greedy leading whitespace,
then capture lazily up to the earliest following fence, the capture being
stripped of trailing whitespace — the behavior of the source regex
`/(三backticks)(?:json)?\s*([\s\S]*?)\s*(三backticks)/` at that start. -/
def fencedTryAt (cs : List Char) (p : Nat) : Option (List Char) :=
  let c1 := p + 3
  let c2 := c1 + (if startsWithL (cs.drop c1) jsonTagL then 4 else 0)
  let c3 := c2 + countWs (cs.drop c2)
  match firstFenceGE cs c3 with
  | some t => some (dropTrailingWs ((cs.drop c3).take (t - c3)))
  | none => none

/-- The fenced-block match: leftmost fence start from which the whole
pattern matches, returning the captured interior. -/
def fencedMatch (cs : List Char) : Option (List Char) :=
  (((List.range (cs.length + 1)).filter fun p => fenceAt cs p).filterMap
    (fencedTryAt cs)).head?

/-- Strategy 3 of `extractJSON` (part_000 lines 48–52): the substring
from the first left brace to the last right brace when both exist, else
failure. -/
def bracesTail {α : Type} (parse : List Char → Option α) (cs : List Char) : Option α :=
  let firstOpen := jsIndexOf cs [lb]
  let lastClose := jsLastIndexOfChar cs rb
  if firstOpen ≠ -1 ∧ lastClose ≠ -1 then
    parse (jsSubstring cs firstOpen (lastClose + 1))
  else none

/-- Strategies 2–3 of `extractJSON` (part_000 lines 45–54): the fenced
block is parsed only under the source's `if (match && match[1])`
truthiness guard — a missing match or an empty capture (`""` is falsy)
falls through to the first-brace/last-brace strategy. -/
def extractTail {α : Type} (parse : List Char → Option α) (cs : List Char) : Option α :=
  match fencedMatch cs with
  | some interior =>
    if interior ≠ [] then parse interior else bracesTail parse cs
  | none => bracesTail parse cs

/-- `extractJSON` of `src/unnamed/part_000` (lines 27–59): trim, then the
marker-anchored balanced-brace scan, then the fenced block, then
first-brace-to-last-brace; `parse` stands for the platform `JSON.parse`
(`none` models a parse exception, which the source converts into the same
extraction failure); overall `none` models `JSON Extraction failed`. -/
def extractJSON₀ {α : Type} (parse : List Char → Option α) (str : List Char) : Option α :=
  let cleanStr := jsTrim str
  if containsSub cleanStr markerL then
    match braceScan cleanStr (markerStart cleanStr) with
    | some sub => parse sub
    | none => extractTail parse cleanStr
  else extractTail parse cleanStr

/-- The substring `extractJSON₀` submits to `JSON.parse`, independent of
the parse oracle. -/
def extractCandidate₀ (str : List Char) : Option (List Char) :=
  let cleanStr := jsTrim str
  if containsSub cleanStr markerL then
    match braceScan cleanStr (markerStart cleanStr) with
    | some sub => some sub
    | none => extractTail some cleanStr
  else extractTail some cleanStr

/-- The line-comment-stripping replace of `src/index.js` line 26
(`/\/\/.*$/gm`): inside every maximal run of non-line-terminator
characters, delete from the first `//` to the end of the run. -/
def stripSeg (seg : List Char) : List Char :=
  match jsIndexOf seg (['/', '/']) with
  | .ofNat i => seg.take i
  | .negSucc _ => seg

/-- Worker for `stripLineComments`: accumulate the current run (reversed)
until a line terminator, strip the run, keep the terminator, continue. -/
def stripLineCommentsGo : List Char → List Char → List Char
  | [], cur => stripSeg cur.reverse
  | c :: rest, cur =>
    if c = '\n' ∨ c = '\x0d' then
      stripSeg cur.reverse ++ c :: stripLineCommentsGo rest []
    else stripLineCommentsGo rest (c :: cur)

/-- Apply `stripSeg` between line terminators (which `.` does not match). -/
def stripLineComments (s : List Char) : List Char := stripLineCommentsGo s []

/-- `extractJSON` of `src/index.js` (lines 24–55): identical to
`extractJSON₀` except that the input is first passed through the
line-comment-stripping replace. -/
def extractJSONIdx {α : Type} (parse : List Char → Option α) (str : List Char) : Option α :=
  extractJSON₀ parse (stripLineComments str)

/-- The substring the `src/index.js` extractor submits to `JSON.parse`. -/
def extractCandidateIdx (str : List Char) : Option (List Char) :=
  extractCandidate₀ (stripLineComments str)

/-! ## Recommendation Validator / Normalizer (part_000 lines 519–584) -/

/-- JS `x || d` for an optional numeric field: missing and 0 are falsy. -/
def jsOrQ (o : Option ℚ) (d : ℚ) : ℚ :=
  match o with
  | none => d
  | some v => if v = 0 then d else v

/-- JS `Number.prototype.toFixed(4)` followed by `parseFloat`: round to
four decimal places (half away from zero on the nonnegative values that
occur here). -/
def toFixed4 (x : ℚ) : ℚ := ((round (x * 10000) : ℤ) : ℚ) / 10000

/-- Symbol normalization of `getBinancePrice`:
`symbol.toUpperCase().replace(/[\/\s-]/g, '')`. -/
def cleanSymbol (s : String) : String :=
  ((upperL s.toList).filter fun c => ¬ (c = '/' ∨ isJsWs c ∨ c = '-')).asString

/-- The model's untrusted proposal (RawRecommendation), with JS-optional
numeric fields as `Option ℚ`. -/
structure RawRec where
  action : Option String
  asset : String
  leverage : Option ℚ
  stop_loss : Option ℚ
  take_profit : Option ℚ
  reasoning_summary : String
  suggested_price : Option ℚ
  suggested_quantity : Option ℚ
deriving DecidableEq

/-- Canonical trade actions plus the discard marker HOLD. -/
inductive NAction where
  | BUY
  | SELL
  | CLOSE
  | HOLD
deriving DecidableEq

/-- Render a canonical action the way the validator emits it. -/
def NAction.str : NAction → String
  | .BUY => "BUY"
  | .SELL => "SELL"
  | .CLOSE => "CLOSE"
  | .HOLD => "HOLD"

def buyTok : List Char := ("BUY").toList
def longTok : List Char := ("LONG").toList
def alTok : List Char := ("AL").toList
def sellTok : List Char := ("SELL").toList
def shortTok : List Char := ("SHORT").toList
def satTok : List Char := ("SAT").toList
def closeTok : List Char := ("CLOSE").toList
def exitTok : List Char := ("EXIT").toList
def kapatTok : List Char := ("KAPAT").toList

/-- Action normalization (part_000 lines 526–533): substring matching of
the buy/long/AL, sell/short/SAT and close/exit/KAPAT synonym sets against
the uppercased raw action, in that order; no match means HOLD. -/
def normalizedActionOf (rawAction : String) : NAction :=
  let l := rawAction.toList
  if containsSub l buyTok ∨ containsSub l longTok ∨ containsSub l alTok then .BUY
  else if containsSub l sellTok ∨ containsSub l shortTok ∨ containsSub l satTok then .SELL
  else if containsSub l closeTok ∨ containsSub l exitTok ∨ containsSub l kapatTok then .CLOSE
  else .HOLD

/-- The validated, canonical output record (TradeRecommendation). -/
structure TradeRec where
  symbol : String
  action : NAction
  originalAction : String
  quantity : ℚ
  leverage : ℚ
  stopLoss : ℚ
  takeProfit : ℚ
  reason : String
  confidence : ℚ
  price : ℚ
deriving DecidableEq

/-- Final-quantity computation (part_000 lines 543–560): a positive
suggested quantity is used verbatim when its live notional meets 100,
else recomputed as `(100 / livePrice).toFixed(4)`; an absent or
non-positive suggestion defaults to
`Math.max(budget / livePrice, 100 / livePrice).toFixed(4)`. -/
def computeFinalQuantity (budget livePrice : ℚ) (sq : Option ℚ) : ℚ :=
  match sq with
  | some q =>
    if q > 0 then
      if q * livePrice ≥ 100 then q else toFixed4 (100 / livePrice)
    else toFixed4 (max (budget / livePrice) (100 / livePrice))
  | none => toFixed4 (max (budget / livePrice) (100 / livePrice))

/-- Leverage clamp (part_000 line 576):
`Math.min(Math.max(r.leverage || 1, 1), 20)`. -/
def leverageClamp (o : Option ℚ) : ℚ := min (max (jsOrQ o 1) 1) 20

/-- Record construction with the final notional recheck (part_000 lines
562–582): drop the recommendation when `finalQuantity × livePrice < 100`,
otherwise emit the canonical record. -/
def buildTrade (budget livePrice : ℚ) (r : RawRec) (na : NAction)
    (rawAction : String) : Option TradeRec :=
  let finalQuantity := computeFinalQuantity budget livePrice r.suggested_quantity
  let finalNotional := finalQuantity * livePrice
  if finalNotional < 100 then none
  else some
    { symbol := r.asset
      action := na
      originalAction := rawAction
      quantity := finalQuantity
      leverage := leverageClamp r.leverage
      stopLoss := jsOrQ r.stop_loss 0
      takeProfit := jsOrQ r.take_profit 0
      reason := r.reasoning_summary
      confidence := 9 / 10
      price := jsOrQ r.suggested_price livePrice }

/-- One iteration of the validation loop (part_000 lines 519–584) for one
RawRecommendation, with the live-price lookup as an oracle keyed by the
normalized symbol (`getBinancePrice`); `none` means the recommendation is
dropped. The JS truthiness test `if (livePrice)` drops a zero price. -/
def validateRec (budget : ℚ) (oracle : String → Option ℚ) (r : RawRec) :
    Option TradeRec :=
  let rawAction := ((upperL (r.action.getD ("")).toList)).asString
  if rawAction = "HOLD" ∨ rawAction = "STAY" then none
  else
    let na := normalizedActionOf rawAction
    if na = .HOLD then none
    else
      match oracle (cleanSymbol r.asset) with
      | none => none
      | some livePrice =>
        if livePrice = 0 then none
        else buildTrade budget livePrice r na rawAction

/-! ## Characterization of an emitted recommendation (helper) -/

/-- Any emitted TradeRecommendation arises from a resolved nonzero live
price, passes the final 100-notional recheck, and is exactly the record
the source pushes. -/
theorem validateRec_emitted {budget : ℚ} {oracle : String → Option ℚ}
    {r : RawRec} {t : TradeRec}
    (h : validateRec budget oracle r = some t) :
    ∃ live, oracle (cleanSymbol r.asset) = some live ∧ live ≠ 0 ∧
      ¬ (computeFinalQuantity budget live r.suggested_quantity * live < 100) ∧
      t = { symbol := r.asset
            action := normalizedActionOf ((upperL (r.action.getD ("")).toList)).asString
            originalAction := ((upperL (r.action.getD ("")).toList)).asString
            quantity := computeFinalQuantity budget live r.suggested_quantity
            leverage := leverageClamp r.leverage
            stopLoss := jsOrQ r.stop_loss 0
            takeProfit := jsOrQ r.take_profit 0
            reason := r.reasoning_summary
            confidence := 9 / 10
            price := jsOrQ r.suggested_price live } := by
  unfold validateRec at h
  simp only [] at h
  split_ifs at h
  rename_i hna
  cases ho : oracle (cleanSymbol r.asset) with
  | none => rw [ho] at h; exact absurd h (by simp)
  | some live =>
    rw [ho] at h
    simp only at h
    split_ifs at h with hz
    refine ⟨live, rfl, hz, ?_⟩
    unfold buildTrade at h
    simp only [] at h
    split_ifs at h with hn
    exact ⟨hn, (Option.some.inj h).symm⟩

/-! ## Concrete inputs used by counterexamples and witnesses -/

/-- Text containing the discriminator marker whose brace balance never
returns to zero, followed by a well-formed fenced JSON block. -/
def exC2 : List Char :=
  ("\x7b\x7b\"type\": \"analysis_result\" ```json\x7b\"a\": 1\x7d```").toList

/-- The interior of the fenced block of `exC2`. -/
def exC2Interior : List Char := ("\x7b\"a\": 1\x7d").toList

/-- A JSON object whose only string value contains a URL scheme. -/
def exUrl : List Char := ("\x7b\"url\": \"https://x.com\"\x7d").toList

/-- What the `src/index.js` comment-stripping replace leaves of `exUrl`. -/
def exUrlStripped : List Char := ("\x7b\"url\": \"https:").toList

/-- Price oracle resolving BTCUSDT at 6 quote units. -/
def cexOracle : String → Option ℚ := fun s => if s = "BTCUSDT" then some 6 else none

/-- A BUY proposal with positive suggested quantity whose notional is under
the 100 minimum. -/
def cexRawRec : RawRec :=
  { action := some ("BUY"), asset := "BTCUSDT", leverage := none, stop_loss := none
    take_profit := none, reasoning_summary := "momentum", suggested_price := none
    suggested_quantity := some 1 }

/-- Price oracle resolving BTCUSDT at 50000 (the spec scenario price). -/
def witOracle : String → Option ℚ :=
  fun s => if s = "BTCUSDT" then some 50000 else none

/-- A BUY proposal with no suggested quantity (spec scenario). -/
def witRawRec : RawRec :=
  { action := some ("BUY"), asset := "BTCUSDT", leverage := none, stop_loss := none
    take_profit := none, reasoning_summary := "scenario", suggested_price := none
    suggested_quantity := none }

/-- The record the validator emits for `witRawRec` at price 50000 and
budget 100: quantity `0.002`, notional exactly 100. -/
def witTrade : TradeRec :=
  { symbol := "BTCUSDT", action := .BUY, originalAction := "BUY"
    quantity := 1 / 500, leverage := 1, stopLoss := 0, takeProfit := 0
    reason := "scenario", confidence := 9 / 10, price := 50000 }

/-- Price oracle resolving BTCUSDT at 100. -/
def c10Oracle : String → Option ℚ :=
  fun s => if s = "BTCUSDT" then some 100 else none

/-- A BUY proposal carrying a (nonzero) suggested price of 1 and suggested
quantity 1: live notional exactly 100, emitted-record notional 1. -/
def c10Rec : RawRec :=
  { action := some ("BUY"), asset := "BTCUSDT", leverage := none, stop_loss := none
    take_profit := none, reasoning_summary := "override", suggested_price := some 1
    suggested_quantity := some 1 }

/-- The record the validator emits for `c10Rec`. -/
def c10Trade : TradeRec :=
  { symbol := "BTCUSDT", action := .BUY, originalAction := "BUY"
    quantity := 1, leverage := 1, stopLoss := 0, takeProfit := 0
    reason := "override", confidence := 9 / 10, price := 1 }

/-- A proposal whose action matches no synonym set. -/
def holdRawRec : RawRec :=
  { action := some ("WAIT"), asset := "BTCUSDT", leverage := none, stop_loss := none
    take_profit := none, reasoning_summary := "", suggested_price := none
    suggested_quantity := none }

/-! ## C2: extractor strategy priority -/

/-- C2 counterexample: `exC2` contains the discriminator marker, the
marker-anchored balanced-brace scan finds no closing point, and the
extractor nevertheless succeeds by parsing the fenced block interior —
the fenced strategy is consulted although the marker is present,
contradicting the claimed strict priority. -/
theorem extractor_priority_counterexample :
    containsSub (jsTrim exC2) markerL = true ∧
    braceScan (jsTrim exC2) (markerStart (jsTrim exC2)) = none ∧
    extractJSON₀ some exC2 = some exC2Interior ∧
    fencedMatch (jsTrim exC2) = some exC2Interior :=
  ⟨by decide, by decide, by decide, by decide⟩

/-- C2 amended: the extractor's cascade as the code implements it — the
marker strategy applies exactly when the marker is present AND the
balanced scan returns a substring (which is then parsed, with no further
fallback); when the marker is absent or the scan fails, the fenced block
interior is parsed if the fenced match succeeds with a non-empty capture
(the source's `match && match[1]` truthiness guard); a missing fence OR an
empty capture falls through to the first-brace-to-last-brace substring if
both braces exist; else extraction fails. -/
theorem extractor_strategy_cascade {α : Type} (parse : List Char → Option α)
    (s : List Char) :
    (∀ sub, containsSub (jsTrim s) markerL = true →
        braceScan (jsTrim s) (markerStart (jsTrim s)) = some sub →
        extractJSON₀ parse s = parse sub) ∧
    (containsSub (jsTrim s) markerL = false ∨
        braceScan (jsTrim s) (markerStart (jsTrim s)) = none →
      (∀ interior, fencedMatch (jsTrim s) = some interior → interior ≠ [] →
          extractJSON₀ parse s = parse interior) ∧
      (fencedMatch (jsTrim s) = none ∨ fencedMatch (jsTrim s) = some [] →
        (jsIndexOf (jsTrim s) [lb] ≠ -1 ∧ jsLastIndexOfChar (jsTrim s) rb ≠ -1 →
          extractJSON₀ parse s =
            parse (jsSubstring (jsTrim s) (jsIndexOf (jsTrim s) [lb])
              (jsLastIndexOfChar (jsTrim s) rb + 1))) ∧
        (¬ (jsIndexOf (jsTrim s) [lb] ≠ -1 ∧ jsLastIndexOfChar (jsTrim s) rb ≠ -1) →
          extractJSON₀ parse s = none))) := by
  constructor
  · intro sub hm hscan
    unfold extractJSON₀
    simp only [hm, if_true, hscan]
  · intro hfall
    have htail : extractJSON₀ parse s = extractTail parse (jsTrim s) := by
      unfold extractJSON₀
      rcases hfall with hm | hscan
      · simp [hm]
      · by_cases hm2 : containsSub (jsTrim s) markerL
        · simp [hm2, hscan]
        · simp [hm2]
    refine ⟨?_, ?_⟩
    · intro interior hf hne
      have h9 : extractTail parse (jsTrim s) =
          (if interior ≠ [] then parse interior
           else bracesTail parse (jsTrim s)) := by
        unfold extractTail
        rw [hf]
      rw [htail, h9, if_pos hne]
    · intro hf
      have h9 : extractTail parse (jsTrim s) = bracesTail parse (jsTrim s) := by
        rcases hf with hf | hf
        · unfold extractTail
          rw [hf]
        · have h8 : extractTail parse (jsTrim s) =
              (if ([] : List Char) ≠ [] then parse []
               else bracesTail parse (jsTrim s)) := by
            unfold extractTail
            rw [hf]
          rw [h8, if_neg (by simp)]
      constructor
      · intro hb
        rw [htail, h9]
        unfold bracesTail
        rw [if_pos hb]
      · intro hb
        rw [htail, h9]
        unfold bracesTail
        rw [if_neg hb]

/-- Text whose fenced block captures an empty interior (falsy in the
source's guard) followed by a plain JSON object. -/
def exFenceEmpty : List Char := ("``` ``` \x7b\"a\":1\x7d").toList

/-- The object the first-brace/last-brace strategy recovers from
`exFenceEmpty`. -/
def exFenceEmptyObj : List Char := ("\x7b\"a\":1\x7d").toList

/-- C2 witness: the cascade theorem applied at `exC2` (marker present,
scan fails, non-empty fenced interior parsed) and at `exFenceEmpty`
(empty fenced capture falls through to the first-brace/last-brace
strategy). -/
theorem extractor_strategy_cascade_witness :
    extractJSON₀ some exC2 = some exC2Interior ∧
    extractJSON₀ some exFenceEmpty = some exFenceEmptyObj :=
  ⟨((extractor_strategy_cascade some exC2).2 (Or.inr (by decide))).1
     exC2Interior (by decide) (by decide),
   ((((extractor_strategy_cascade some exFenceEmpty).2
       (Or.inl (by decide))).2 (Or.inr (by decide))).1 (by decide))⟩

/-! ## C3: comment stripping corrupts URLs (src/index.js) -/

/-- C3: evaluating both extractor variants at the URL payload — the
`src/index.js` variant first strips from `//` to end of line, truncating
the value to `"https:` and then failing extraction entirely, while the
corrected variant of part_000 (whose source comment records the removal of
exactly this replace) passes the object through intact. -/
theorem extractor_url_stripping_bug_eval :
    stripLineComments exUrl = exUrlStripped ∧
    extractCandidateIdx exUrl = none ∧
    extractJSONIdx some exUrl = none ∧
    extractCandidate₀ exUrl = some exUrl :=
  ⟨by decide, by decide, by decide, by decide⟩

/-! ## C1: quantity determination and the minimum-notional floor -/

/-- C1 counterexample: at live price 6 with suggested quantity 1 (notional
6 < 100), the recomputed quantity is `(100/6).toFixed(4) = 16.6667`, not
`100/6` as the claim states. -/
theorem validator_min_quantity_counterexample :
    (1 : ℚ) * 6 < 100 ∧
    (validateRec 100 cexOracle cexRawRec).map TradeRec.quantity =
      some (166667 / 10000) ∧
    (166667 : ℚ) / 10000 ≠ 100 / 6 :=
  ⟨by norm_num, by decide, by norm_num⟩

/-- C1 amended: quantity branches as the code computes them — a positive
suggested quantity meeting the 100 live-notional minimum is used verbatim;
a positive one under the minimum is recomputed as `100/price` rounded to
four decimal places; an absent or non-positive one defaults to
`max(budget/price, 100/price)` rounded to four decimal places — and in
every branch the emitted record satisfies the rechecked minimum
`100 ≤ quantity × livePrice`. -/
theorem validator_quantity_branches_and_min_notional
    (budget : ℚ) (oracle : String → Option ℚ) (r : RawRec) (t : TradeRec)
    (h : validateRec budget oracle r = some t) :
    ∃ live, oracle (cleanSymbol r.asset) = some live ∧ live ≠ 0 ∧
      100 ≤ t.quantity * live ∧
      ((∃ q, r.suggested_quantity = some q ∧ 0 < q ∧ 100 ≤ q * live ∧
          t.quantity = q) ∨
       (∃ q, r.suggested_quantity = some q ∧ 0 < q ∧ q * live < 100 ∧
          t.quantity = toFixed4 (100 / live)) ∨
       ((r.suggested_quantity = none ∨ ∃ q, r.suggested_quantity = some q ∧ q ≤ 0) ∧
          t.quantity = toFixed4 (max (budget / live) (100 / live)))) := by
  obtain ⟨live, ho, hz, hn, ht⟩ := validateRec_emitted h
  refine ⟨live, ho, hz, ?_, ?_⟩
  · rw [ht]
    exact not_lt.mp hn
  · rw [ht]
    cases hq : r.suggested_quantity with
    | none =>
      right; right
      exact ⟨Or.inl rfl, rfl⟩
    | some q =>
      by_cases hpos : q > 0
      · by_cases hge : q * live ≥ 100
        · left
          refine ⟨q, rfl, hpos, hge, ?_⟩
          show computeFinalQuantity budget live (some q) = q
          simp only [computeFinalQuantity]
          rw [if_pos hpos, if_pos hge]
        · right; left
          refine ⟨q, rfl, hpos, not_le.mp hge, ?_⟩
          show computeFinalQuantity budget live (some q) = toFixed4 (100 / live)
          simp only [computeFinalQuantity]
          rw [if_pos hpos, if_neg hge]
      · right; right
        refine ⟨Or.inr ⟨q, rfl, not_lt.mp hpos⟩, ?_⟩
        show computeFinalQuantity budget live (some q) =
          toFixed4 (max (budget / live) (100 / live))
        simp only [computeFinalQuantity]
        rw [if_neg hpos]

/-- C1 witness: the spec scenario — budget 100, live price 50000, no
suggested quantity — emits quantity `0.002` with notional exactly 100. -/
theorem validator_quantity_branches_witness :
    ∃ live, witOracle (cleanSymbol witRawRec.asset) = some live ∧ live ≠ 0 ∧
      100 ≤ witTrade.quantity * live ∧
      ((∃ q, witRawRec.suggested_quantity = some q ∧ 0 < q ∧ 100 ≤ q * live ∧
          witTrade.quantity = q) ∨
       (∃ q, witRawRec.suggested_quantity = some q ∧ 0 < q ∧ q * live < 100 ∧
          witTrade.quantity = toFixed4 (100 / live)) ∨
       ((witRawRec.suggested_quantity = none ∨
           ∃ q, witRawRec.suggested_quantity = some q ∧ q ≤ 0) ∧
          witTrade.quantity = toFixed4 (max (100 / live) (100 / live)))) :=
  validator_quantity_branches_and_min_notional 100 witOracle witRawRec witTrade
    (by decide)

/-! ## C6: leverage clamp -/

/-- C6: every emitted recommendation's leverage lies in [1, 20], and a
missing leverage defaults to 1. -/
theorem leverage_clamped (budget : ℚ) (oracle : String → Option ℚ)
    (r : RawRec) (t : TradeRec) (h : validateRec budget oracle r = some t) :
    1 ≤ t.leverage ∧ t.leverage ≤ 20 ∧ (r.leverage = none → t.leverage = 1) := by
  obtain ⟨live, _, _, _, ht⟩ := validateRec_emitted h
  subst ht
  refine ⟨?_, ?_, ?_⟩
  · show 1 ≤ leverageClamp r.leverage
    unfold leverageClamp
    exact le_min (le_max_right _ _) (by norm_num)
  · show leverageClamp r.leverage ≤ 20
    exact min_le_right _ _
  · intro hl
    show leverageClamp r.leverage = 1
    rw [hl]
    decide

/-- C6 witness: the clamp theorem at the concrete emitted record of the
spec scenario (leverage absent, emitted leverage 1). -/
theorem leverage_clamped_witness :
    1 ≤ witTrade.leverage ∧ witTrade.leverage ≤ 20 ∧
      (witRawRec.leverage = none → witTrade.leverage = 1) :=
  leverage_clamped 100 witOracle witRawRec witTrade (by decide)

/-! ## C9: action normalization idempotence and discard -/

/-- C9: normalizing an already-normalized action (BUY, SELL, CLOSE) yields
the same action, and a proposal whose action normalizes to HOLD is
discarded by the validator. -/
theorem action_normalization_idempotent_and_discard :
    (∀ a : NAction, a ≠ .HOLD → normalizedActionOf a.str = a) ∧
    (∀ (budget : ℚ) (oracle : String → Option ℚ) (r : RawRec),
      normalizedActionOf ((upperL (r.action.getD ("")).toList)).asString = .HOLD →
      validateRec budget oracle r = none) := by
  constructor
  · intro a ha
    cases a with
    | BUY => decide
    | SELL => decide
    | CLOSE => decide
    | HOLD => exact absurd rfl ha
  · intro budget oracle r hH
    unfold validateRec
    simp only []
    by_cases h1 : ((upperL (r.action.getD ("")).toList)).asString = "HOLD" ∨
        ((upperL (r.action.getD ("")).toList)).asString = "STAY"
    · rw [if_pos h1]
    · rw [if_neg h1, if_pos hH]

/-- C9 witness: BUY is a fixed point of normalization, and the WAIT
proposal (matching no synonym set) is dropped. -/
theorem action_normalization_witness :
    normalizedActionOf (NAction.BUY.str) = NAction.BUY ∧
    validateRec 100 witOracle holdRawRec = none :=
  ⟨action_normalization_idempotent_and_discard.1 .BUY (by decide),
   action_normalization_idempotent_and_discard.2 100 witOracle holdRawRec
     (by decide)⟩

/-! ## C10: emitted price and confidence fields -/

/-- C10: every emitted record has confidence exactly 0.9; its price field
is the model's suggested price whenever that is present and nonzero, and
the verified live price otherwise; the minimum-notional recheck is always
against the live price, and concretely (at suggested price 1, live price
100) the emitted record's own `quantity × price` is below 100. -/
theorem emitted_price_confidence_fields :
    (∀ (budget : ℚ) (oracle : String → Option ℚ) (r : RawRec) (t : TradeRec),
        validateRec budget oracle r = some t →
        t.confidence = 9 / 10 ∧
        ∃ live, oracle (cleanSymbol r.asset) = some live ∧ live ≠ 0 ∧
          100 ≤ t.quantity * live ∧
          (∀ v, r.suggested_price = some v → v ≠ 0 → t.price = v) ∧
          ((r.suggested_price = none ∨ r.suggested_price = some 0) →
            t.price = live)) ∧
    (validateRec 100 c10Oracle c10Rec = some c10Trade ∧
      c10Trade.quantity * c10Trade.price < 100) := by
  constructor
  · intro budget oracle r t h
    obtain ⟨live, ho, hz, hn, ht⟩ := validateRec_emitted h
    subst ht
    refine ⟨rfl, live, ho, hz, not_lt.mp hn, ?_, ?_⟩
    · intro v hv hvz
      show jsOrQ r.suggested_price live = v
      rw [hv]
      unfold jsOrQ
      simp [hvz]
    · intro hcase
      show jsOrQ r.suggested_price live = live
      rcases hcase with hc | hc <;> rw [hc] <;> unfold jsOrQ <;> simp
  · exact ⟨by decide, by decide⟩

/-- C10 witness: the field theorem applied at the concrete suggested-price
override input. -/
theorem emitted_price_confidence_fields_witness :
    c10Trade.confidence = 9 / 10 ∧
    ∃ live, c10Oracle (cleanSymbol c10Rec.asset) = some live ∧ live ≠ 0 ∧
      100 ≤ c10Trade.quantity * live ∧
      (∀ v, c10Rec.suggested_price = some v → v ≠ 0 → c10Trade.price = v) ∧
      ((c10Rec.suggested_price = none ∨ c10Rec.suggested_price = some 0) →
        c10Trade.price = live) :=
  emitted_price_confidence_fields.1 100 c10Oracle c10Rec c10Trade (by decide)

/-! ## C8: budget computation (part_000 lines 356–361) -/

/-- One caller-supplied balance entry. -/
structure Balance where
  asset : String
  free : ℚ
deriving DecidableEq

/-- One caller-supplied open position (fields used only inside prompt text,
such as `openingReason`, are omitted as prompt wording is out of scope). -/
structure Position where
  symbol : String
  unrealizedProfit : Option ℚ
deriving DecidableEq

/-- Available USDT resolution (lines 357–358): the `free` field of the
first balance whose asset is `USDT`, defaulting to 200 when absent. -/
def usdtOf (balances : List Balance) : ℚ :=
  match balances.find? (fun b => b.asset == "USDT") with
  | some b => b.free
  | none => 200

/-- Total equity (line 360): the positions' `unrealizedProfit || 0` summed
by `reduce`, plus the available quote balance. -/
def totalEquityOf (positions : List Position) (usdt : ℚ) : ℚ :=
  positions.foldl (fun sum p => sum + jsOrQ p.unrealizedProfit 0) 0 + usdt

/-- Budget formula (line 361): `Math.max(15, totalEquity * 0.1)`. -/
def budgetFn (totalEquity : ℚ) : ℚ := max 15 (totalEquity * (1 / 10))

/-- The budget the handler computes from the caller's portfolio. -/
def budgetOf (balances : List Balance) (positions : List Position) : ℚ :=
  budgetFn (totalEquityOf positions (usdtOf balances))

/-- C8: the computed budget equals
`max(floor 15, (Σ unrealizedProfit + quote balance) × 10%)`, and the budget
is monotone in total equity. -/
theorem budget_formula_and_monotone :
    (∀ (balances : List Balance) (positions : List Position),
        budgetOf balances positions =
          max 15 (((positions.map fun p => p.unrealizedProfit.getD 0).sum +
            usdtOf balances) * (1 / 10))) ∧
    (∀ e1 e2 : ℚ, e1 ≤ e2 → budgetFn e1 ≤ budgetFn e2) := by
  constructor
  · intro balances positions
    unfold budgetOf budgetFn totalEquityOf
    have hsum : (positions.map fun p => p.unrealizedProfit.getD 0).sum =
        positions.foldl (fun sum p => sum + jsOrQ p.unrealizedProfit 0) 0 := by
      rw [List.sum_eq_foldl, List.foldl_map]
      congr 1
      funext sum p
      congr 1
      cases hp : p.unrealizedProfit with
      | none => rfl
      | some v =>
        unfold jsOrQ
        by_cases hv : v = 0
        · simp [hv]
        · simp [hv]
    rw [hsum]
  · intro e1 e2 h
    unfold budgetFn
    exact max_le_max le_rfl (mul_le_mul_of_nonneg_right h (by norm_num))

/-- Caller balances of the spec budget scenario (850 free USDT). -/
def c8Balances : List Balance := [{ asset := "USDT", free := 850 }]

/-- Caller positions of the spec budget scenario (150 unrealized profit,
total equity 1000). -/
def c8Positions : List Position := [{ symbol := "BTCUSDT", unrealizedProfit := some 150 }]

/-- C8 witness: the formula at the concrete scenario portfolio plus
monotonicity at 10 ≤ 20. -/
theorem budget_formula_and_monotone_witness :
    budgetOf c8Balances c8Positions =
      max 15 (((c8Positions.map fun p => p.unrealizedProfit.getD 0).sum +
        usdtOf c8Balances) * (1 / 10)) ∧
    budgetFn 10 ≤ budgetFn 20 :=
  ⟨budget_formula_and_monotone.1 c8Balances c8Positions,
   budget_formula_and_monotone.2 10 20 (by norm_num)⟩

/-! ## Pipeline state monad (part_000 request handler, lines 164–607)

Outbound calls advance a tick counter by two (issue tick, completion
tick) and are recorded on a trace; the abort signal is modelled as a tick
threshold (`abortAt`) from which `signal.aborted` reads true, so a fetch
issued before the threshold but completing after it rejects with
`AbortError` mid-flight, and a fetch attempted at or after it rejects
without being issued — the `fetch`/`AbortSignal` contract. -/

/-- A thrown JS error: `AbortError` (the DOMException name fetch rejects
with) or an `Error` carrying a message. -/
inductive PErr where
  | abortError
  | message (s : String)
deriving DecidableEq

/-- One trimmed search snippet (title/url/content/published_date). -/
structure Snippet where
  title : String
  url : String
  content : String
  published_date : String
deriving DecidableEq

/-- One research step result pushed by Phase 3. -/
structure StepResult where
  step : String
  query : String
  data : List Snippet
deriving DecidableEq

/-- Parsed audit object. -/
structure AuditData where
  audit_findings : String
  recommended_adjustments : List String
deriving DecidableEq

/-- One parsed research-plan step. -/
structure PlanStep where
  action : String
  description : String
  searchQuery : Option String
deriving DecidableEq

/-- Parsed research plan (`steps` may be absent). -/
structure PlanData where
  steps : Option (List PlanStep)
deriving DecidableEq

/-- Parsed ticker-discovery object. -/
structure TickerData where
  candidate_tickers : Option (List String)
deriving DecidableEq

/-- Parsed synthesis envelope payload. -/
structure SynthInner where
  text : Option String
  recommendations : Option (List RawRec)
deriving DecidableEq

/-- Parsed synthesis envelope (`data` may be absent). -/
structure SynthData where
  data : Option SynthInner
deriving DecidableEq

/-- An outbound network call, tagged with the structured data its request
embeds (prompt wording itself is out of scope). -/
inductive OutCall where
  | price (cleanSym : String)
  | audit (goal : String) (priceMap : List (String × ℚ))
  | plan (goal : String) (auditFindings : String)
  | tavily (query : String)
  | tickers (research : List StepResult)
  | synth (auditFindings : String) (adjustments : List String)
      (priceMap : List (String × ℚ)) (budget : ℚ) (usdt : ℚ)
deriving DecidableEq

/-- Pipeline state: tick counter and trace of issued calls. -/
structure PState where
  ticks : Nat
  trace : List (Nat × OutCall)
deriving DecidableEq

/-- The pipeline computation type: state in, `Except` result and state
out. -/
def PM (α : Type) : Type := PState → Except PErr α × PState

/-- Monadic return. -/
def PM.pure {α : Type} (a : α) : PM α := fun s => (.ok a, s)

/-- Monadic bind: exceptions short-circuit, state threads through. -/
def PM.bind {α β : Type} (m : PM α) (k : α → PM β) : PM β := fun s =>
  match m s with
  | (.ok a, s1) => k a s1
  | (.error e, s1) => (.error e, s1)

instance : Monad PM where
  pure := PM.pure
  bind := PM.bind

/-- JS `throw`. -/
def PM.throw {α : Type} (e : PErr) : PM α := fun s => (.error e, s)

/-- JS `try`/`catch`: state changes made before the throw persist. -/
def PM.tryCatch {α : Type} (m : PM α) (h : PErr → PM α) : PM α := fun s =>
  match m s with
  | (.ok a, s1) => (.ok a, s1)
  | (.error e, s1) => h e s1

/-- Is the cooperative signal aborted at tick `t`? -/
def isAborted (abortAt : Option Nat) (t : Nat) : Bool :=
  match abortAt with
  | none => false
  | some k => decide (k ≤ t)

/-- A reasoning-service response: non-success HTTP (`apiError`), or a
success whose first choice content may be missing. -/
inductive OAIResp where
  | apiError (body : String)
  | ok (content : Option String)
deriving DecidableEq

/-- The environment: external oracles and the abort threshold. `price` is
keyed by the normalized query symbol; `tavily` returns `none` when the
search fetch itself throws; the `parse…` oracles stand for `JSON.parse`
plus field reads for the phase's expected shape. -/
structure Env where
  price : String → Option ℚ
  auditResp : OAIResp
  planResp : OAIResp
  tickersResp : OAIResp
  synthResp : OAIResp
  tavily : String → Option (List Snippet)
  parseAudit : List Char → Option AuditData
  parsePlan : List Char → Option PlanData
  parseTickers : List Char → Option TickerData
  parseSynth : List Char → Option SynthData
  abortAt : Option Nat

/-- A fetch attempt: rejects unissued when the signal is already aborted;
otherwise records the call at the issue tick, and rejects with
`AbortError` when abort arrives mid-flight. -/
def fetchPrim (env : Env) (c : OutCall) : PM Unit := fun s =>
  if isAborted env.abortAt s.ticks then (.error .abortError, s)
  else
    let s1 : PState := { ticks := s.ticks + 2, trace := s.trace ++ [(s.ticks, c)] }
    if isAborted env.abortAt (s.ticks + 1) then (.error .abortError, s1)
    else (.ok (), s1)

/-- The loop-head guard `if (signal.aborted) throw new Error('Aborted')`. -/
def checkAborted (env : Env) : PM Unit := fun s =>
  if isAborted env.abortAt s.ticks then (.error (.message ("Aborted")), s)
  else (.ok (), s)

/-- `getBinancePrice(symbol, signal)` (part_000 lines 61–72): normalize
the symbol, fetch, and swallow every error (including aborts) as `null`. -/
def getBinancePriceM (env : Env) (symbol : String) : PM (Option ℚ) :=
  PM.tryCatch
    (PM.bind (fetchPrim env (.price (cleanSymbol symbol)))
      (fun _ => PM.pure (env.price (cleanSymbol symbol))))
    (fun _ => PM.pure none)

/-- `makeOpenAIRequest` (lines 74–99): fetch, throw on non-success
response, else hand back the response body. -/
def makeOpenAIRequestM (env : Env) (c : OutCall) (resp : OAIResp) :
    PM (Option String) :=
  PM.bind (fetchPrim env c) fun _ =>
    match resp with
    | .apiError body => PM.throw (.message ("OpenAI API error: " ++ body))
    | .ok content => PM.pure content

/-- `searchMarketData` (lines 101–120): fetch, returning the error marker
with an empty result list on any failure (including aborts). -/
def searchMarketDataM (env : Env) (query : String) : PM (List Snippet) :=
  PM.tryCatch
    (PM.bind (fetchPrim env (.tavily query)) fun _ =>
      match env.tavily query with
      | some results => PM.pure results
      | none => PM.throw (.message ("fetch failed")))
    (fun _ => PM.pure [])

/-- The inbound request body. -/
structure Input where
  userQuery : Option String
  userBalances : Option (List Balance)
  userPositions : Option (List Position)
  userId : Option String
deriving DecidableEq

/-- The fixed generic goal substituted for empty/placeholder goals. -/
def defaultGoal : String :=
  "Optimize my portfolio based on current 2026 market conditions."

/-- Goal defaulting (lines 194–196): falsy, `undefined` or `null`. -/
def resolveQuery (o : Option String) : String :=
  match o with
  | none => defaultGoal
  | some s => if s = "" ∨ s = "undefined" ∨ s = "null" then defaultGoal else s

/-- JS `x || d` for an optional string: missing and empty are falsy. -/
def jsOrStrOpt (o : Option String) (d : String) : String :=
  match o with
  | none => d
  | some s => if s = "" then d else s

/-- JS object assignment `m[k] = v` on the association-list model. -/
def objSet (m : List (String × ℚ)) (k : String) (v : ℚ) : List (String × ℚ) :=
  if (m.find? fun kv => kv.1 == k).isSome then
    m.map fun kv => if kv.1 == k then (k, v) else kv
  else m ++ [(k, v)]

/-- JS object read `m[k]` on the association-list model. -/
def objGet (m : List (String × ℚ)) (k : String) : Option ℚ :=
  (m.find? fun kv => kv.1 == k).map Prod.snd

/-- JS truthiness of a price value (`undefined`/`null`/0 falsy). -/
def jsTruthyQ (o : Option ℚ) : Bool :=
  match o with
  | some v => decide (v ≠ 0)
  | none => false

/-- `Set.add` preserving insertion order. -/
def addTracked (l : List String) (s : String) : List String :=
  if l.contains s then l else l ++ [s]

/-- Phase 0 tracked set (lines 203–211): benchmarks plus every truthy
position symbol, verbatim. -/
def trackedAssetsOf (positions : List Position) : List String :=
  positions.foldl
    (fun acc p => if p.symbol ≠ "" then addTracked acc p.symbol else acc)
    (["BTCUSDT", "ETHUSDT"])

/-- Phase 0 price loop (lines 213–218): per symbol, abort guard, price
fetch, and `priceMap[sym] = p` on truthy result — keyed by the raw
tracked symbol. -/
def phase0Go (env : Env) : List String → List (String × ℚ) →
    PM (List (String × ℚ))
  | [], m => PM.pure m
  | sym :: rest, m =>
    PM.bind (checkAborted env) fun _ =>
    PM.bind (getBinancePriceM env sym) fun p =>
    match p with
    | some v => if v = 0 then phase0Go env rest m
                else phase0Go env rest (objSet m sym v)
    | none => phase0Go env rest m

/-- Phase 0: build the initial PriceMap. -/
def phase0 (env : Env) (positions : List Position) : PM (List (String × ℚ)) :=
  phase0Go env (trackedAssetsOf positions) []

/-- The audit fallback object (line 251). -/
def auditFallback : AuditData :=
  { audit_findings := "Could not perform detailed audit, proceeding with caution."
    recommended_adjustments := [] }

/-- Phase 1 (lines 243–251): call the reasoning service, throw on empty
choices, extract, and fall back on extraction failure. -/
def phaseAudit (env : Env) (goal : String) (priceMap : List (String × ℚ)) :
    PM AuditData :=
  PM.bind (makeOpenAIRequestM env (.audit goal priceMap) env.auditResp)
    fun content? =>
      match content? with
      | none => PM.throw (.message ("OpenAI Empty Response"))
      | some content =>
        match extractJSON₀ env.parseAudit content.toList with
        | some d => PM.pure d
        | none => PM.pure auditFallback

/-- The deterministic fallback plan (lines 283–289). -/
def planFallback (goal : String) : PlanData :=
  { steps := some
      [ { action := "market_search", description := "Technical analysis"
          searchQuery := some (goal ++ " 2026 technical analysis") }
      , { action := "market_search", description := "Macro news"
          searchQuery := some ("crypto macro news 2026") } ] }

/-- The TypeError raised by reading `.choices[0].message.content` of a
response with no choices (phases without the explicit emptiness check). -/
def typeErrorMsg : String := "TypeError: Cannot read properties of undefined"

/-- Phase 2 (lines 278–289): plan call, extraction, mechanical fallback. -/
def phasePlan (env : Env) (goal : String) (audit : AuditData) : PM PlanData :=
  PM.bind (makeOpenAIRequestM env (.plan goal audit.audit_findings) env.planResp)
    fun content? =>
      match content? with
      | none => PM.throw (.message typeErrorMsg)
      | some content =>
        match extractJSON₀ env.parsePlan content.toList with
        | some d => PM.pure d
        | none => PM.pure (planFallback goal)

/-- Phase 3 loop body (lines 294–311): abort guard,
`step.searchQuery || userQuery`, search, snippet trimming, result push. -/
def researchGo (env : Env) (goal : String) : List PlanStep → List StepResult →
    PM (List StepResult)
  | [], acc => PM.pure acc
  | step :: rest, acc =>
    PM.bind (checkAborted env) fun _ =>
    let queryToUse := jsOrStrOpt step.searchQuery goal
    PM.bind (searchMarketDataM env queryToUse) fun data =>
    let cleanData := data.map fun r =>
      { title := r.title, url := r.url, content := r.content
        published_date := r.published_date : Snippet }
    researchGo env goal rest
      (acc ++ [{ step := step.description, query := queryToUse, data := cleanData }])

/-- Phase 3 (line 293): at most two plan steps are consumed. -/
def phaseResearch (env : Env) (goal : String) (plan : PlanData) :
    PM (List StepResult) :=
  researchGo env goal ((plan.steps.getD []).take 2) []

/-- Phase 3.5 ticker discovery (lines 326–334): reasoning call and
extraction inside a try whose catch rethrows when the error is an
`AbortError` or the signal is (now) aborted, and otherwise swallows the
failure leaving no candidates. -/
def phaseTickers (env : Env) (stepResults : List StepResult) : PM (List String) :=
  PM.tryCatch
    (PM.bind (makeOpenAIRequestM env (.tickers stepResults) env.tickersResp)
      fun content? =>
        match content? with
        | none => PM.throw (.message typeErrorMsg)
        | some content =>
          match extractJSON₀ env.parseTickers content.toList with
          | some d => PM.pure (d.candidate_tickers.getD [])
          | none => PM.throw (.message ("JSON Extraction failed")))
    (fun e => fun s =>
      if e = .abortError ∨ isAborted env.abortAt s.ticks then (.error e, s)
      else (.ok [], s))

/-- `sym.toUpperCase().trim()` of the candidate loop (line 340). -/
def upperTrim (s : String) : String := (jsTrim (upperL s.toList)).asString

/-- Phase 3.5 price loop (lines 338–348): abort guard, uppercase-and-trim
the candidate, and fetch-and-add only when `priceMap[cleanSym]` is falsy. -/
def phase35Go (env : Env) : List String → List (String × ℚ) →
    PM (List (String × ℚ))
  | [], m => PM.pure m
  | sym :: rest, m =>
    PM.bind (checkAborted env) fun _ =>
    let cleanSym := upperTrim sym
    if jsTruthyQ (objGet m cleanSym) then phase35Go env rest m
    else
      PM.bind (getBinancePriceM env cleanSym) fun p =>
      match p with
      | some pv => if pv = 0 then phase35Go env rest m
                   else phase35Go env rest (objSet m cleanSym pv)
      | none => phase35Go env rest m

/-- `rawData.data?.recommendations || []`. -/
def recsOf (sd : SynthData) : List RawRec :=
  match sd.data with
  | some d => d.recommendations.getD []
  | none => []

/-- Validation loop (lines 519–584) over the raw recommendation list:
HOLD/STAY skip, abort guard, action normalization, live-price fetch, and
the pure record construction of `buildTrade`. -/
def validateGo (env : Env) (budget : ℚ) : List RawRec → List TradeRec →
    PM (List TradeRec)
  | [], acc => PM.pure acc
  | r :: rest, acc =>
    let rawAction := ((upperL (r.action.getD ("")).toList)).asString
    if rawAction = "HOLD" ∨ rawAction = "STAY" then validateGo env budget rest acc
    else
      PM.bind (checkAborted env) fun _ =>
      let na := normalizedActionOf rawAction
      if na = .HOLD then validateGo env budget rest acc
      else
        PM.bind (getBinancePriceM env r.asset) fun live =>
        match live with
        | some lp =>
          if lp = 0 then validateGo env budget rest acc
          else
            match buildTrade budget lp r na rawAction with
            | some t => validateGo env budget rest (acc ++ [t])
            | none => validateGo env budget rest acc
        | none => validateGo env budget rest acc

/-- The JSON body of a successful response (line 586). -/
structure RespBody where
  text : String
  tradeRecommendations : List TradeRec
  plan : PlanData
deriving DecidableEq

/-- The whole request handler body (lines 181–591), phase by phase. -/
def pipeline (env : Env) (inp : Input) : PM RespBody :=
  let userQuery := resolveQuery inp.userQuery
  let balances := inp.userBalances.getD []
  let positions := inp.userPositions.getD []
  PM.bind (phase0 env positions) fun priceMap =>
  PM.bind (phaseAudit env userQuery priceMap) fun auditData =>
  PM.bind (phasePlan env userQuery auditData) fun planData =>
  PM.bind (phaseResearch env userQuery planData) fun stepResults =>
  PM.bind (phaseTickers env stepResults) fun newCandidates =>
  PM.bind (phase35Go env newCandidates priceMap) fun priceMap2 =>
  let usdt := usdtOf balances
  let budget := budgetFn (totalEquityOf positions usdt)
  PM.bind (makeOpenAIRequestM env
      (.synth auditData.audit_findings auditData.recommended_adjustments
        priceMap2 budget usdt)
      env.synthResp) fun synthContent? =>
  match synthContent? with
  | none => PM.throw (.message typeErrorMsg)
  | some content =>
    match extractJSON₀ env.parseSynth content.toList with
    | none => PM.throw (.message ("JSON Extraction failed"))
    | some rawData =>
      PM.bind (validateGo env budget (recsOf rawData) []) fun recs =>
      PM.pure
        { text := jsOrStrOpt (rawData.data.bind fun d => d.text) "Analysis Complete"
          tradeRecommendations := recs
          plan := planData }

/-- The caller-visible outcome. -/
inductive Outcome where
  | success (body : RespBody)
  | canceled
  | failure (msg : String)
deriving DecidableEq

/-- The catch block (lines 594–605): `AbortError` name or `Aborted`
message map to the 499 `canceled` response, everything else to the 500
generic error response. -/
def respond : Except PErr RespBody → Outcome
  | .ok b => .success b
  | .error .abortError => .canceled
  | .error (.message m) => if m = "Aborted" then .canceled else .failure m

/-- HTTP status attached to each outcome. -/
def statusOf : Outcome → Nat
  | .success _ => 200
  | .canceled => 499
  | .failure _ => 500

/-- Fresh per-request state. -/
def s0 : PState := { ticks := 0, trace := [] }

/-- One full request: run the pipeline on fresh state and map the result
through the catch block. -/
def runPipeline (env : Env) (inp : Input) : Outcome × PState :=
  ((respond (pipeline env inp s0).1), (pipeline env inp s0).2)

deriving instance DecidableEq for Except

/-! ## Concrete pipeline environments -/

/-- A price oracle resolving the two benchmark instruments. -/
def benchPrice : String → Option ℚ := fun s =>
  if s = "BTCUSDT" then some 97000 else if s = "ETHUSDT" then some 3500 else none

/-- Environment for the PriceMap-key run: no abort, all reasoning
responses empty (the run never gets that far in the phase-0 theorem). -/
def c7Env : Env :=
  { price := benchPrice
    auditResp := .ok none, planResp := .ok none
    tickersResp := .ok none, synthResp := .ok none
    tavily := fun _ => none
    parseAudit := fun _ => none, parsePlan := fun _ => none
    parseTickers := fun _ => none, parseSynth := fun _ => none
    abortAt := none }

/-- A portfolio whose position carries a raw separator-bearing lowercase
symbol. -/
def c7Positions : List Position :=
  [{ symbol := "btc/usdt", unrealizedProfit := some 0 }]

/-- The PriceMap phase 0 builds for `c7Positions`: the raw position symbol
is the third key. -/
def c7Map : List (String × ℚ) :=
  [("BTCUSDT", 97000), ("ETHUSDT", 3500), ("btc/usdt", 97000)]

/-- The claim's normalization predicate: uppercase and free of the
separator characters. -/
def isNormalizedSym (s : String) : Bool :=
  s.toList.all fun c => (Char.toUpper c = c) && ¬ (c = '/' ∨ c = ' ' ∨ c = '-')

/-- Environment for the audit-fallback run: audit content unparseable,
every later phase parseable, no abort. -/
def c5Env : Env :=
  { price := benchPrice
    auditResp := .ok (some ("oops"))
    planResp := .ok (some ("\x7bP\x7d"))
    tickersResp := .ok (some ("\x7bT\x7d"))
    synthResp := .ok (some ("\x7bS\x7d"))
    tavily := fun _ => some []
    parseAudit := fun _ => none
    parsePlan := fun _ => some { steps := some [] }
    parseTickers := fun _ => some { candidate_tickers := some [] }
    parseSynth := fun _ =>
      some { data := some { text := some ("done"), recommendations := some [] } }
    abortAt := none }

/-- A plain inbound request. -/
def c5Input : Input :=
  { userQuery := some ("grow"), userBalances := none, userPositions := none
    userId := none }

/-- The PriceMap after phase 0 with no positions. -/
def c5Map : List (String × ℚ) := [("BTCUSDT", 97000), ("ETHUSDT", 3500)]

/-- The successful body of the audit-fallback run. -/
def c5Body : RespBody :=
  { text := "done", tradeRecommendations := [], plan := { steps := some [] } }

/-- The outbound-call trace of the audit-fallback run: the synthesis call
carries the fallback findings. -/
def c5Trace : List (Nat × OutCall) :=
  [(0, .price ("BTCUSDT")), (2, .price ("ETHUSDT")),
   (4, .audit ("grow") c5Map),
   (6, .plan ("grow") auditFallback.audit_findings),
   (8, .tickers []),
   (10, .synth auditFallback.audit_findings [] c5Map 20 200)]

/-- Environment for the cancellation run: the abort arrives (tick 10)
right after the ticker-discovery response, whose content is unparseable. -/
def c4Env : Env :=
  { price := benchPrice
    auditResp := .ok (some ("\x7bA\x7d"))
    planResp := .ok (some ("\x7bP\x7d"))
    tickersResp := .ok (some ("garbage"))
    synthResp := .ok (some ("\x7bS\x7d"))
    tavily := fun _ => some []
    parseAudit := fun _ =>
      some { audit_findings := "F", recommended_adjustments := [] }
    parsePlan := fun _ => some { steps := some [] }
    parseTickers := fun _ => none
    parseSynth := fun _ => none
    abortAt := some 10 }

/-- The inbound request of the cancellation runs. -/
def c4Input : Input :=
  { userQuery := some ("grow"), userBalances := none, userPositions := none
    userId := none }

/-- Environment whose signal is aborted from the very first tick. -/
def c4AbortEnv : Env :=
  { price := benchPrice
    auditResp := .ok none, planResp := .ok none
    tickersResp := .ok none, synthResp := .ok none
    tavily := fun _ => none
    parseAudit := fun _ => none, parsePlan := fun _ => none
    parseTickers := fun _ => none, parseSynth := fun _ => none
    abortAt := some 0 }

/-! ## C7 counterexample -/

/-- C7 counterexample: phase 0 inserts the position symbol `btc/usdt`
verbatim as a PriceMap key — lowercase with a separator — while the
network query itself used the normalized form (the recorded calls), so the
PriceMap-key invariant claimed is violated. -/
theorem pricemap_keys_counterexample :
    phase0 c7Env c7Positions s0 =
      (.ok c7Map,
        { ticks := 6
          trace := [(0, .price ("BTCUSDT")), (2, .price ("ETHUSDT")),
                    (4, .price ("BTCUSDT"))] }) ∧
    c7Map.map Prod.fst = ["BTCUSDT", "ETHUSDT", "btc/usdt"] ∧
    isNormalizedSym ("btc/usdt") = false :=
  ⟨by decide, by decide, by decide⟩

/-! ## C5 counterexample -/

/-- C5 counterexample: when audit extraction fails, the substituted
fallback has the fixed placeholder findings text — not empty findings as
claimed — and that is the findings value the synthesis call receives (the
run still completes successfully). -/
theorem audit_fallback_counterexample :
    runPipeline c5Env c5Input = (.success c5Body, { ticks := 12, trace := c5Trace }) ∧
    auditFallback.audit_findings ≠ "" ∧
    (10, OutCall.synth auditFallback.audit_findings [] c5Map 20 200) ∈ c5Trace :=
  ⟨by decide, by decide, by decide⟩

/-! ## C4 counterexample -/

/-- C4 counterexample: the ticker-discovery catch observes the aborted
signal and rethrows the pending (non-abort) extraction error, so a run
whose signal is canceled terminates with the generic 500 failure outcome
rather than the distinct canceled outcome. -/
theorem cancellation_outcome_counterexample :
    (runPipeline c4Env c4Input).1 = .failure ("JSON Extraction failed") ∧
    isAborted c4Env.abortAt (runPipeline c4Env c4Input).2.ticks = true ∧
    statusOf (runPipeline c4Env c4Input).1 = 500 ∧
    Outcome.failure ("JSON Extraction failed") ≠ Outcome.canceled :=
  ⟨by decide, by decide, by decide, by decide⟩

/-! ## Trace invariant: no call is ever issued at an aborted tick -/

/-- Every recorded call was issued strictly before the abort threshold. -/
def TraceOK (env : Env) (s : PState) : Prop :=
  ∀ tc ∈ s.trace, isAborted env.abortAt tc.1 = false

/-- A computation preserves the trace invariant. -/
def KeepsTrace (env : Env) {α : Type} (m : PM α) : Prop :=
  ∀ s, TraceOK env s → TraceOK env (m s).2

theorem keepsTrace_pure (env : Env) {α : Type} (a : α) :
    KeepsTrace env (PM.pure a) := fun _ h => h

theorem keepsTrace_throw (env : Env) {α : Type} (e : PErr) :
    KeepsTrace env (PM.throw e : PM α) := fun _ h => h

theorem keepsTrace_bind {env : Env} {α β : Type} {m : PM α} {k : α → PM β}
    (h1 : KeepsTrace env m) (h2 : ∀ a, KeepsTrace env (k a)) :
    KeepsTrace env (PM.bind m k) := by
  intro s hs
  have h1s := h1 s hs
  unfold PM.bind
  rcases hm : m s with ⟨r, s1⟩
  rw [hm] at h1s
  cases r with
  | ok a => exact h2 a s1 h1s
  | error e => exact h1s

theorem keepsTrace_tryCatch {env : Env} {α : Type} {m : PM α}
    {h : PErr → PM α} (h1 : KeepsTrace env m)
    (h2 : ∀ e, KeepsTrace env (h e)) :
    KeepsTrace env (PM.tryCatch m h) := by
  intro s hs
  have h1s := h1 s hs
  unfold PM.tryCatch
  rcases hm : m s with ⟨r, s1⟩
  rw [hm] at h1s
  cases r with
  | ok a => exact h1s
  | error e => exact h2 e s1 h1s

theorem keepsTrace_fetchPrim (env : Env) (c : OutCall) :
    KeepsTrace env (fetchPrim env c) := by
  intro s hs
  unfold fetchPrim
  split
  · exact hs
  · rename_i hab
    have hab2 : isAborted env.abortAt s.ticks = false := by
      simpa using hab
    split
    all_goals
      intro tc htc
      simp only [List.mem_append, List.mem_singleton] at htc
      rcases htc with htc | htc
      · exact hs tc htc
      · rw [htc]
        exact hab2

theorem keepsTrace_checkAborted (env : Env) :
    KeepsTrace env (checkAborted env) := by
  intro s hs
  unfold checkAborted
  split <;> exact hs

theorem keepsTrace_getBinancePriceM (env : Env) (symbol : String) :
    KeepsTrace env (getBinancePriceM env symbol) :=
  keepsTrace_tryCatch
    (keepsTrace_bind (keepsTrace_fetchPrim _ _) fun _ => keepsTrace_pure _ _)
    (fun _ => keepsTrace_pure _ _)

theorem keepsTrace_makeOpenAI (env : Env) (c : OutCall) (resp : OAIResp) :
    KeepsTrace env (makeOpenAIRequestM env c resp) := by
  apply keepsTrace_bind (keepsTrace_fetchPrim _ _)
  intro _
  cases resp with
  | apiError body => exact keepsTrace_throw _ _
  | ok content => exact keepsTrace_pure _ _

theorem keepsTrace_search (env : Env) (query : String) :
    KeepsTrace env (searchMarketDataM env query) := by
  apply keepsTrace_tryCatch _ (fun _ => keepsTrace_pure _ _)
  apply keepsTrace_bind (keepsTrace_fetchPrim _ _)
  intro _
  cases env.tavily query with
  | some results => exact keepsTrace_pure _ _
  | none => exact keepsTrace_throw _ _

theorem keepsTrace_phase0Go (env : Env) (syms : List String) :
    ∀ m, KeepsTrace env (phase0Go env syms m) := by
  induction syms with
  | nil => intro m; exact keepsTrace_pure _ _
  | cons sym rest ih =>
    intro m
    unfold phase0Go
    apply keepsTrace_bind (keepsTrace_checkAborted _)
    intro _
    apply keepsTrace_bind (keepsTrace_getBinancePriceM _ _)
    intro p
    split
    · split
      · exact ih _
      · exact ih _
    · exact ih _

theorem keepsTrace_phaseAudit (env : Env) (goal : String)
    (priceMap : List (String × ℚ)) :
    KeepsTrace env (phaseAudit env goal priceMap) := by
  apply keepsTrace_bind (keepsTrace_makeOpenAI _ _ _)
  intro content?
  split
  · exact keepsTrace_throw _ _
  · split
    · exact keepsTrace_pure _ _
    · exact keepsTrace_pure _ _

theorem keepsTrace_phasePlan (env : Env) (goal : String) (audit : AuditData) :
    KeepsTrace env (phasePlan env goal audit) := by
  apply keepsTrace_bind (keepsTrace_makeOpenAI _ _ _)
  intro content?
  split
  · exact keepsTrace_throw _ _
  · split
    · exact keepsTrace_pure _ _
    · exact keepsTrace_pure _ _

theorem keepsTrace_researchGo (env : Env) (goal : String)
    (steps : List PlanStep) :
    ∀ acc, KeepsTrace env (researchGo env goal steps acc) := by
  induction steps with
  | nil => intro acc; exact keepsTrace_pure _ _
  | cons step rest ih =>
    intro acc
    unfold researchGo
    apply keepsTrace_bind (keepsTrace_checkAborted _)
    intro _
    apply keepsTrace_bind (keepsTrace_search _ _)
    intro data
    exact ih _

theorem keepsTrace_phaseTickers (env : Env) (stepResults : List StepResult) :
    KeepsTrace env (phaseTickers env stepResults) := by
  apply keepsTrace_tryCatch
  · apply keepsTrace_bind (keepsTrace_makeOpenAI _ _ _)
    intro content?
    split
    · exact keepsTrace_throw _ _
    · split
      · exact keepsTrace_pure _ _
      · exact keepsTrace_throw _ _
  · intro e s hs
    simp only []
    split <;> exact hs

theorem keepsTrace_phase35Go (env : Env) (cands : List String) :
    ∀ m, KeepsTrace env (phase35Go env cands m) := by
  induction cands with
  | nil => intro m; exact keepsTrace_pure _ _
  | cons sym rest ih =>
    intro m
    unfold phase35Go
    apply keepsTrace_bind (keepsTrace_checkAborted _)
    intro _
    by_cases hv : jsTruthyQ (objGet m (upperTrim sym)) = true
    · rw [if_pos hv]; exact ih _
    · rw [if_neg hv]
      apply keepsTrace_bind (keepsTrace_getBinancePriceM _ _)
      intro p
      split
      · split
        · exact ih _
        · exact ih _
      · exact ih _

theorem keepsTrace_validateGo (env : Env) (budget : ℚ) (rs : List RawRec) :
    ∀ acc, KeepsTrace env (validateGo env budget rs acc) := by
  induction rs with
  | nil => intro acc; exact keepsTrace_pure _ _
  | cons r rest ih =>
    intro acc
    unfold validateGo
    simp only []
    split
    · exact ih _
    · apply keepsTrace_bind (keepsTrace_checkAborted _)
      intro _
      split
      · exact ih _
      · apply keepsTrace_bind (keepsTrace_getBinancePriceM _ _)
        intro live
        split
        · split
          · exact ih _
          · split
            · exact ih _
            · exact ih _
        · exact ih _

theorem keepsTrace_pipeline (env : Env) (inp : Input) :
    KeepsTrace env (pipeline env inp) := by
  unfold pipeline
  apply keepsTrace_bind (keepsTrace_phase0Go _ _ _)
  intro priceMap
  apply keepsTrace_bind (keepsTrace_phaseAudit _ _ _)
  intro auditData
  apply keepsTrace_bind (keepsTrace_phasePlan _ _ _)
  intro planData
  apply keepsTrace_bind (keepsTrace_researchGo _ _ _ _)
  intro stepResults
  apply keepsTrace_bind (keepsTrace_phaseTickers _ _)
  intro newCandidates
  apply keepsTrace_bind (keepsTrace_phase35Go _ _ _)
  intro priceMap2
  apply keepsTrace_bind (keepsTrace_makeOpenAI _ _ _)
  intro synthContent?
  split
  · exact keepsTrace_throw _ _
  · split
    · exact keepsTrace_throw _ _
    · apply keepsTrace_bind (keepsTrace_validateGo _ _ _ _)
      intro recs
      exact keepsTrace_pure _ _

/-- The fresh state satisfies the invariant vacuously. -/
theorem traceOK_s0 (env : Env) : TraceOK env s0 := by
  intro tc htc
  simp [s0] at htc

/-! ## C4: cancellation outcome and outbound-call silence -/

/-- C4 amended: when the pipeline terminates with an `AbortError` or the
internal `Aborted` check, the caller receives the distinct canceled
outcome (status 499), never the generic failure; and in every run — with
any oracles, inputs and abort timing — every outbound call on the trace
was issued at an unaborted tick, so no outbound call is ever issued at or
after the abort point. (The counterexample shows the remaining case: a
non-abort error rethrown by the ticker-discovery catch because the signal
is aborted surfaces as the generic failure.) -/
theorem cancellation_canceled_outcome_and_no_calls :
    (∀ (env : Env) (inp : Input) (e : PErr),
        (pipeline env inp s0).1 = .error e →
        e = .abortError ∨ e = .message ("Aborted") →
        (runPipeline env inp).1 = .canceled ∧
          statusOf (runPipeline env inp).1 = 499) ∧
    (∀ msg, Outcome.canceled ≠ Outcome.failure msg) ∧
    (∀ (env : Env) (inp : Input), ∀ tc ∈ (runPipeline env inp).2.trace,
        isAborted env.abortAt tc.1 = false) := by
  refine ⟨?_, ?_, ?_⟩
  · intro env inp e herr he
    have hres : (runPipeline env inp).1 = respond (.error e) := by
      unfold runPipeline
      rw [herr]
    rcases he with he | he <;> rw [he] at hres <;>
      exact ⟨by rw [hres]; decide, by rw [hres]; decide⟩
  · intro msg h
    exact Outcome.noConfusion h
  · intro env inp
    have := keepsTrace_pipeline env inp s0 (traceOK_s0 env)
    exact this

/-- C4 witness: a signal aborted from tick 0 produces the canceled
outcome with status 499 and an empty call trace. -/
theorem cancellation_canceled_witness :
    ((runPipeline c4AbortEnv c4Input).1 = .canceled ∧
      statusOf (runPipeline c4AbortEnv c4Input).1 = 499) ∧
    (∀ tc ∈ (runPipeline c4AbortEnv c4Input).2.trace,
        isAborted c4AbortEnv.abortAt tc.1 = false) :=
  ⟨cancellation_canceled_outcome_and_no_calls.1 c4AbortEnv c4Input
     (.message ("Aborted")) (by decide) (Or.inr rfl),
   cancellation_canceled_outcome_and_no_calls.2.2 c4AbortEnv c4Input⟩

/-! ## C5: audit extraction failure falls back and the run continues -/

/-- A reasoning call whose response is a success either hands back its
content or rejects on abort — it never fails any other way. -/
theorem makeOpenAI_ok_result (env : Env) (c : OutCall) (co : Option String)
    (s : PState) :
    ∃ s1, makeOpenAIRequestM env c (.ok co) s = (.ok co, s1) ∨
      makeOpenAIRequestM env c (.ok co) s = (.error .abortError, s1) := by
  unfold makeOpenAIRequestM PM.bind fetchPrim
  by_cases h1 : isAborted env.abortAt s.ticks = true
  · rw [if_pos h1]
    exact ⟨s, Or.inr rfl⟩
  · rw [if_neg h1]
    simp only []
    by_cases h2 : isAborted env.abortAt (s.ticks + 1) = true
    · rw [if_pos h2]
      exact ⟨_, Or.inr rfl⟩
    · rw [if_neg h2]
      exact ⟨_, Or.inl rfl⟩

/-- C5 amended: whenever the audit response parses to no JSON, the audit
phase yields the fallback AuditResult — whose findings is the fixed
placeholder text, with an empty adjustments list — rather than an error
(short of an abort rejection); and the concrete failed-audit run
completes to synthesis carrying exactly that fallback, surfacing success
to the caller, never a failure. -/
theorem audit_fallback_continues :
    (∀ (env : Env) (goal : String) (priceMap : List (String × ℚ)) (s : PState)
        (content : String),
        env.auditResp = OAIResp.ok (some content) →
        extractJSON₀ env.parseAudit content.toList = none →
        (phaseAudit env goal priceMap s).1 = .ok auditFallback ∨
        (phaseAudit env goal priceMap s).1 = .error .abortError) ∧
    (auditFallback.recommended_adjustments = [] ∧
      (runPipeline c5Env c5Input).1 = .success c5Body ∧
      (10, OutCall.synth auditFallback.audit_findings [] c5Map 20 200) ∈
        (runPipeline c5Env c5Input).2.trace) := by
  constructor
  · intro env goal priceMap s content hresp hext
    unfold phaseAudit PM.bind
    rw [hresp]
    obtain ⟨s1, h | h⟩ := makeOpenAI_ok_result env (.audit goal priceMap)
      (some content) s
    · rw [h]
      left
      show ((match extractJSON₀ env.parseAudit content.toList with
        | some d => PM.pure d
        | none => PM.pure auditFallback) s1).1 = .ok auditFallback
      rw [hext]
      rfl
    · rw [h]
      right
      rfl
  · exact ⟨by decide, by decide, by decide⟩

/-- C5 witness: the fallback theorem applied at the concrete failed-audit
environment. -/
theorem audit_fallback_continues_witness :
    (phaseAudit c5Env ("grow") c5Map s0).1 = .ok auditFallback ∨
    (phaseAudit c5Env ("grow") c5Map s0).1 = .error .abortError :=
  audit_fallback_continues.1 c5Env ("grow") c5Map s0 ("oops") rfl (by decide)

/-! ## C7: what the PriceMap keys actually are -/

/-- Keys after a JS object assignment: the old keys plus the new one. -/
theorem mem_keys_objSet {m : List (String × ℚ)} {k : String} {v : ℚ}
    {k2 : String} (h : k2 ∈ (objSet m k v).map Prod.fst) :
    k2 ∈ m.map Prod.fst ∨ k2 = k := by
  unfold objSet at h
  split at h
  · obtain ⟨x, hx, hxe⟩ := List.mem_map.mp h
    obtain ⟨kv, hkv, hfe⟩ := List.mem_map.mp hx
    by_cases hk : (kv.1 == k) = true
    · right
      rw [← hxe, ← hfe, if_pos hk]
    · left
      rw [← hxe, ← hfe, if_neg hk]
      exact List.mem_map.mpr ⟨kv, hkv, rfl⟩
  · rw [List.map_append] at h
    rcases List.mem_append.mp h with h | h
    · exact Or.inl h
    · right
      simpa using h

/-- Membership in the order-preserving set add. -/
theorem mem_addTracked {l : List String} {s k : String}
    (h : k ∈ addTracked l s) : k ∈ l ∨ k = s := by
  unfold addTracked at h
  split at h
  · exact Or.inl h
  · rcases List.mem_append.mp h with h | h
    · exact Or.inl h
    · right; simpa using h

/-- Membership in the tracked-asset fold. -/
theorem mem_trackedFold (positions : List Position) :
    ∀ (init : List String) (k : String),
      k ∈ positions.foldl
        (fun acc p => if p.symbol ≠ "" then addTracked acc p.symbol else acc)
        init →
      k ∈ init ∨ ∃ p ∈ positions, p.symbol = k := by
  induction positions with
  | nil => intro init k h; exact Or.inl h
  | cons p rest ih =>
    intro init k h
    simp only [List.foldl_cons] at h
    rcases ih _ k h with h2 | h2
    · by_cases hp : p.symbol ≠ ""
      · rw [if_pos hp] at h2
        rcases mem_addTracked h2 with h3 | h3
        · exact Or.inl h3
        · exact Or.inr ⟨p, List.mem_cons_self _ _, h3.symm⟩
      · rw [if_neg hp] at h2
        exact Or.inl h2
    · obtain ⟨q, hq, hqe⟩ := h2
      exact Or.inr ⟨q, List.mem_cons_of_mem _ hq, hqe⟩

/-- Keys produced by the phase 0 loop: the incoming keys plus raw loop
symbols. -/
theorem phase0Go_keys (env : Env) (syms : List String) :
    ∀ (m : List (String × ℚ)) (s : PState) (r : Except PErr (List (String × ℚ)))
      (s1 : PState), phase0Go env syms m s = (r, s1) →
      ∀ mk, r = .ok mk → ∀ k, k ∈ mk.map Prod.fst →
        k ∈ m.map Prod.fst ∨ k ∈ syms := by
  induction syms with
  | nil =>
    intro m s r s1 h mk hr k hk
    unfold phase0Go PM.pure at h
    injection h with h1 h2
    rw [← h1] at hr
    injection hr with h3
    rw [← h3] at hk
    exact Or.inl hk
  | cons sym rest ih =>
    intro m s r s1 h mk hr k hk
    unfold phase0Go PM.bind at h
    rcases hc : checkAborted env s with ⟨rc, sc⟩
    rw [hc] at h
    cases rc with
    | error e =>
      simp only [] at h
      injection h with h1 h2
      rw [← h1] at hr
      exact absurd hr (by simp)
    | ok a =>
      simp only [] at h
      rcases hg : getBinancePriceM env sym sc with ⟨rg, sg⟩
      rw [hg] at h
      cases rg with
      | error e =>
        simp only [] at h
        injection h with h1 h2
        rw [← h1] at hr
        exact absurd hr (by simp)
      | ok p =>
        simp only [] at h
        cases p with
        | some v =>
          have h9 : (if v = 0 then phase0Go env rest m
              else phase0Go env rest (objSet m sym v)) sg = (r, s1) := h
          by_cases hv : v = 0
          · rw [if_pos hv] at h9
            rcases ih _ _ _ _ h9 mk hr k hk with h2 | h2
            · exact Or.inl h2
            · exact Or.inr (List.mem_cons_of_mem _ h2)
          · rw [if_neg hv] at h9
            rcases ih _ _ _ _ h9 mk hr k hk with h2 | h2
            · rcases mem_keys_objSet h2 with h3 | h3
              · exact Or.inl h3
              · rw [h3]
                exact Or.inr (List.mem_cons_self _ _)
            · exact Or.inr (List.mem_cons_of_mem _ h2)
        | none =>
          rcases ih _ _ _ _ h mk hr k hk with h2 | h2
          · exact Or.inl h2
          · exact Or.inr (List.mem_cons_of_mem _ h2)

/-- Keys produced by the phase 3.5 loop: the incoming keys plus
uppercased-and-trimmed candidates. -/
theorem phase35Go_keys (env : Env) (cands : List String) :
    ∀ (m : List (String × ℚ)) (s : PState) (r : Except PErr (List (String × ℚ)))
      (s1 : PState), phase35Go env cands m s = (r, s1) →
      ∀ mk, r = .ok mk → ∀ k, k ∈ mk.map Prod.fst →
        k ∈ m.map Prod.fst ∨ ∃ c ∈ cands, upperTrim c = k := by
  induction cands with
  | nil =>
    intro m s r s1 h mk hr k hk
    unfold phase35Go PM.pure at h
    injection h with h1 h2
    rw [← h1] at hr
    injection hr with h3
    rw [← h3] at hk
    exact Or.inl hk
  | cons sym rest ih =>
    intro m s r s1 h mk hr k hk
    unfold phase35Go PM.bind at h
    rcases hc : checkAborted env s with ⟨rc, sc⟩
    rw [hc] at h
    cases rc with
    | error e =>
      simp only [] at h
      injection h with h1 h2
      rw [← h1] at hr
      exact absurd hr (by simp)
    | ok a =>
      simp only [] at h
      by_cases ht : jsTruthyQ (objGet m (upperTrim sym)) = true
      · rw [if_pos ht] at h
        rcases ih _ _ _ _ h mk hr k hk with h2 | h2
        · exact Or.inl h2
        · obtain ⟨c, hc2, hce⟩ := h2
          exact Or.inr ⟨c, List.mem_cons_of_mem _ hc2, hce⟩
      · rw [if_neg ht] at h
        rcases hg : getBinancePriceM env (upperTrim sym) sc with ⟨rg, sg⟩
        rw [hg] at h
        cases rg with
        | error e =>
          simp only [] at h
          injection h with h1 h2
          rw [← h1] at hr
          exact absurd hr (by simp)
        | ok p =>
          simp only [] at h
          cases p with
          | some pv =>
            have h9 : (if pv = 0 then phase35Go env rest m
                else phase35Go env rest (objSet m (upperTrim sym) pv)) sg =
                (r, s1) := h
            by_cases hz : pv = 0
            · rw [if_pos hz] at h9
              rcases ih _ _ _ _ h9 mk hr k hk with h2 | h2
              · exact Or.inl h2
              · obtain ⟨c, hc2, hce⟩ := h2
                exact Or.inr ⟨c, List.mem_cons_of_mem _ hc2, hce⟩
            · rw [if_neg hz] at h9
              rcases ih _ _ _ _ h9 mk hr k hk with h2 | h2
              · rcases mem_keys_objSet h2 with h3 | h3
                · exact Or.inl h3
                · exact Or.inr ⟨sym, List.mem_cons_self _ _, h3.symm⟩
              · obtain ⟨c, hc2, hce⟩ := h2
                exact Or.inr ⟨c, List.mem_cons_of_mem _ hc2, hce⟩
          | none =>
            rcases ih _ _ _ _ h mk hr k hk with h2 | h2
            · exact Or.inl h2
            · obtain ⟨c, hc2, hce⟩ := h2
              exact Or.inr ⟨c, List.mem_cons_of_mem _ hc2, hce⟩

/-- C7 amended: every key of the phase-0 PriceMap is a benchmark symbol or
a position symbol taken verbatim (which, as the counterexample shows, may
be lowercase and separator-bearing); every key the discovery loop adds is
an uppercased-and-trimmed candidate string (inner separators are kept). -/
theorem pricemap_keys_characterization :
    (∀ (env : Env) (positions : List Position) (r : Except PErr (List (String × ℚ)))
        (s1 : PState), phase0 env positions s0 = (r, s1) →
        ∀ mk, r = .ok mk → ∀ k, k ∈ mk.map Prod.fst →
          k = "BTCUSDT" ∨ k = "ETHUSDT" ∨ ∃ p ∈ positions, p.symbol = k) ∧
    (∀ (env : Env) (cands : List String) (m : List (String × ℚ)) (s : PState)
        (r : Except PErr (List (String × ℚ))) (s1 : PState),
        phase35Go env cands m s = (r, s1) →
        ∀ mk, r = .ok mk → ∀ k, k ∈ mk.map Prod.fst →
          k ∈ m.map Prod.fst ∨ ∃ c ∈ cands, upperTrim c = k) := by
  constructor
  · intro env positions r s1 h mk hr k hk
    rcases phase0Go_keys env (trackedAssetsOf positions) [] s0 r s1 h mk hr k hk
      with h2 | h2
    · simp at h2
    · rcases mem_trackedFold positions (["BTCUSDT", "ETHUSDT"]) k h2 with h3 | h3
      · simp only [List.mem_cons, List.not_mem_nil, or_false] at h3
        rcases h3 with h3 | h3
        · exact Or.inl h3
        · exact Or.inr (Or.inl h3)
      · exact Or.inr (Or.inr h3)
  · intro env cands m s r s1 h mk hr k hk
    exact phase35Go_keys env cands m s r s1 h mk hr k hk

/-- C7 witness: the characterization applied at the concrete run whose
PriceMap holds the raw key `btc/usdt`. -/
theorem pricemap_keys_characterization_witness :
    ("btc/usdt" = "BTCUSDT" ∨ "btc/usdt" = "ETHUSDT" ∨
      ∃ p ∈ c7Positions, p.symbol = "btc/usdt") :=
  pricemap_keys_characterization.1 c7Env c7Positions
    (phase0 c7Env c7Positions s0).1 (phase0 c7Env c7Positions s0).2 rfl
    c7Map (by decide) ("btc/usdt") (by decide)

end AnalystServer
